import Mathlib

/-
  Verification development for the svoyak_bot repository.

  The Rust sources (src/data.rs, src/queue.rs, src/topic.rs, src/game.rs,
  src/bot.rs, src/main.rs) are shallowly embedded below: pure functions
  become Lean functions, the sled-backed store becomes explicit state,
  u32/i32 arithmetic is modelled on Nat/Int with explicit `% 2^32`
  wrapping where the Rust release semantics wrap.
-/

set_option maxRecDepth 10000

namespace Svoyak

/-- Mirror of `UserData` from data.rs: display name and an unsigned 32-bit
rating, kept as a `Nat` (callers maintain `rating < 2^32`). -/
structure UserData where
  display_name : String
  rating : Nat
deriving DecidableEq, Repr

/-! ### u32 wrapping arithmetic (Rust release-mode semantics) -/

/-- `2^32`, the modulus of Rust `u32` wrapping arithmetic. -/
def U32_MOD : Nat := 4294967296

/-- Wrapping `u32` subtraction `a - b` for `a b < 2^32`. -/
def u32_sub (a b : Nat) : Nat := (a + U32_MOD - b) % U32_MOD

/-- Wrapping `u32` multiplication. -/
def u32_mul (a b : Nat) : Nat := a * b % U32_MOD

/-- Wrapping `u32` addition. -/
def u32_add (a b : Nat) : Nat := (a + b) % U32_MOD

/-- `Data::START_RATING` from data.rs. -/
def START_RATING : Nat := 15000

/-! ### C2: Data::rating_discount (data.rs lines 270-286) -/

/-- The update applied to one stored rating by `Data::rating_discount`:
`START_RATING + (rating - START_RATING) * 99 / 100` evaluated in `u32`
arithmetic (wrapping subtraction and multiplication, integer division). -/
def rating_discount_one (r : Nat) : Nat :=
  u32_add START_RATING (u32_mul (u32_sub r START_RATING) 99 / 100)

/-- `Data::rating_discount`: the walk over every `user-data#` record,
replacing each stored rating by `rating_discount_one` of it inside one
transaction (modelled as a pure map over the record list). -/
def rating_discount (users : List (String × UserData)) : List (String × UserData) :=
  users.map (fun u => (u.1, { u.2 with rating := rating_discount_one u.2.rating }))

/-! ### C8: Data::add_played (data.rs lines 80-91) -/

/-- `Data::STORE_PLAYED`: capacity of the recent-opponents list. -/
def STORE_PLAYED : Nat := 10

/-- `Data::add_played` on the abstract content of the per-user
`last-played#` list: if the id is present, `remove_element` (drop the
first occurrence) then `add_element` (append at the tail); otherwise, if
the list already holds `STORE_PLAYED` entries, `remove_at 0` (pop the
front) before appending. -/
def add_played (l : List Int) (other : Int) : List Int :=
  if l.contains other then l.erase other ++ [other]
  else if l.length = STORE_PLAYED then l.eraseIdx 0 ++ [other]
  else l ++ [other]

/-- `Data::add_game` (data.rs lines 70-78): push every other participant
onto every participant's recent-opponents list. Modelled on a single
user's list: fold `add_played` over the other participants. -/
def add_game_for_user (l : List Int) (others : List Int) : List Int :=
  others.foldl add_played l

/-! ### C9: Data::add_new_set (data.rs lines 288-295) -/

/-- Mirror of `Question` from topic.rs. -/
structure Question where
  cost : Nat
  question : String
  answers : List String
  comment : Option String
deriving DecidableEq, Repr

/-- Mirror of `Topic` from topic.rs. -/
structure Topic where
  name : String
  questions : List Question
deriving DecidableEq, Repr

/-- Mirror of `TopicSet` from topic.rs. -/
structure TopicSet where
  id : String
  title : String
  description : String
  topics : List Topic
deriving DecidableEq, Repr

/-- The slice of the sled store that `Data::add_new_set` can touch:
the stored packages (`sets#` records plus the in-memory map, modelled as
one lookup function), the `was-active-sets` list, and - untouched by this
operation - the user ratings and played-bitmap records. -/
structure DataState where
  sets : String → Option TopicSet
  was_active_sets : List String
  ratings : List (Int × Nat)
  played : List ((Int × String) × List Nat)

/-- `Data::add_new_set`: reject (returning `false`, state unchanged) when
the id `was_active` and the incoming topic count differs from the stored
package's topic count; otherwise store the package under the id and
return `true`. The Rust `unwrap` on `get_set` panics when a was-active id
has no stored package; the theorem below assumes presence. -/
def add_new_set (st : DataState) (id : String) (ts : TopicSet) : Bool × DataState :=
  if st.was_active_sets.contains id &&
      !((st.sets id).map (fun s => s.topics.length) == some ts.topics.length)
  then (false, st)
  else (true, { st with sets := fun k => if k = id then some ts else st.sets k })

/-! ### i32 wrapping arithmetic (Rust release-mode semantics) -/

/-- `2^32` as an integer. -/
def I32_MOD : Int := 4294967296

/-- `2^31` as an integer. -/
def I32_HALF : Int := 2147483648

/-- Reduce an integer to the two's-complement `i32` range
`[-2^31, 2^31)`, the effect of Rust release-mode `i32` overflow. -/
def i32_wrap (x : Int) : Int := (x + I32_HALF) % I32_MOD - I32_HALF

/-- The Rust cast `u32 as i32` (two's-complement reinterpretation). -/
def i32_of_u32 (n : Nat) : Int := i32_wrap n

/-- The Rust cast `i32 as u32` (two's-complement reinterpretation). -/
def u32_of_i32 (x : Int) : Nat := (x % I32_MOD).toNat

/-! ### C3: Data::save_game_results (data.rs lines 197-233)

The per-opponent rating term `(100f64 * (sa - ea)).round() as i32`, with
`ea = 1 / (1 + 10^((rb - ra)/4000))` and `sa ∈ {0, 0.5, 1}` from comparing
the two scores, is floating-point; it is abstracted below as a function
`f ra rb score_a score_b`. Mathematically `sa - ea ∈ (-1, 1)`, so the
rounded value always lies in `[-100, 100]`; the theorem takes that bound
as a hypothesis on `f`. -/

/-- The inner loop of `save_game_results` for one participant: sum the
per-opponent terms over all entries with a different user id, in `i32`
arithmetic, starting from `delta = 0`. All ratings are read from the
pre-commit store. -/
def elo_delta (f : Nat → Nat → Int → Int → Int) (store : Int → UserData)
    (results : List (Int × UserData × Int × Bool)) (uid : Int) (ra : Nat)
    (score : Int) : Int :=
  ((results.filter (fun o => !(o.1 == uid))).map
      (fun o => f ra (store o.1).rating score o.2.2.1)).foldl
    (fun acc t => i32_wrap (acc + t)) 0

/-- `delta.max(-(ra as i32) + 10)`: the lower clamp applied to a
participant's summed delta, in `i32` arithmetic. -/
def clamp_floor (ra : Nat) : Int := i32_wrap (i32_wrap (-(i32_of_u32 ra)) + 10)

/-- The new stored rating of one participant:
`(data.rating as i32 + delta.max(-(ra as i32) + 10)) as u32`. -/
def new_rating (f : Nat → Nat → Int → Int → Int) (store : Int → UserData)
    (results : List (Int × UserData × Int × Bool)) (uid : Int)
    (score : Int) : Nat :=
  u32_of_i32 (i32_wrap (i32_of_u32 (store uid).rating +
    max (elo_delta f store results uid (store uid).rating score) (clamp_floor (store uid).rating)))

/-- `Data::save_game_results`: one transaction that first computes every
participant's updated record from the pre-commit store and then writes
them all; modelled as the list of `(user id, updated record)` pairs the
transaction inserts. -/
def save_game_results (f : Nat → Nat → Int → Int → Int) (store : Int → UserData)
    (results : List (Int × UserData × Int × Bool)) : List (Int × UserData) :=
  results.map (fun u =>
    (u.1, { store u.1 with rating := new_rating f store results u.1 u.2.2.1 }))

/-! ### C4: Question::check_answer / Question::no_space (topic.rs lines 23-35, 76-95)

Character classification: Rust's `char::is_alphanumeric`, `char::to_lowercase`
and `str::trim` consult full Unicode tables. They are modelled here by
their restriction to ASCII plus Cyrillic, on which the model agrees with
Rust character for character; the C4 theorems carry a `modelled_char`
repertoire hypothesis so that they only assert program behavior where the
model is faithful. -/

/-- The modelled character repertoire: ASCII plus Cyrillic (А-я, Ё, ё).
On these characters `rust_is_alphanumeric`, `rust_to_lowercase` and
`rust_is_whitespace` coincide with Rust's Unicode tables. -/
def modelled_char (c : Char) : Bool :=
  c.toNat ≤ 127 || (1040 ≤ c.toNat && c.toNat ≤ 1103) ||
    c.toNat == 1025 || c.toNat == 1105

/-- Reduce an integer to the two's-complement `i16` range
`[-2^15, 2^15)`: the `level` counter of `Question::no_space` is declared
`0i16` (topic.rs line 78), so its increments and decrements wrap in a
release build (debug builds panic at the overflow). -/
def i16_wrap (x : Int) : Int := (x + 32768) % 65536 - 32768

/-- `c == '(' || c == '[' || c == '\x7b'` (bracket characters written via
their code points). -/
def is_open_bracket (c : Char) : Bool :=
  c == Char.ofNat 40 || c == Char.ofNat 91 || c == Char.ofNat 123

/-- `c == ')' || c == ']' || c == '\x7d'`. -/
def is_close_bracket (c : Char) : Bool :=
  c == Char.ofNat 41 || c == Char.ofNat 93 || c == Char.ofNat 125

/-- Restriction of Rust `char::is_alphanumeric` to ASCII digits/letters and
Cyrillic (А-я plus Ё/ё). -/
def rust_is_alphanumeric (c : Char) : Bool :=
  (48 ≤ c.toNat && c.toNat ≤ 57) || (65 ≤ c.toNat && c.toNat ≤ 90) ||
    (97 ≤ c.toNat && c.toNat ≤ 122) || (1040 ≤ c.toNat && c.toNat ≤ 1103) ||
    c.toNat == 1025 || c.toNat == 1105

/-- Restriction of Rust `char::to_lowercase` (an iterator, hence a list) to
ASCII and Cyrillic: A-Z, А-Я and Ё lower; everything else unchanged. -/
def rust_to_lowercase (c : Char) : List Char :=
  if 65 ≤ c.toNat ∧ c.toNat ≤ 90 then [Char.ofNat (c.toNat + 32)]
  else if 1040 ≤ c.toNat ∧ c.toNat ≤ 1071 then [Char.ofNat (c.toNat + 32)]
  else if c.toNat = 1025 then [Char.ofNat 1105]
  else [c]

/-- Restriction of Rust `char::is_whitespace` to ASCII: exactly the ASCII
White_Space characters (tab through carriage return, and space). -/
def rust_is_whitespace (c : Char) : Bool :=
  c.toNat == 32 || (9 ≤ c.toNat && c.toNat ≤ 13)

/-- Rust `str::trim`: drop whitespace from both ends. -/
def trim_chars (s : List Char) : List Char :=
  ((s.dropWhile rust_is_whitespace).reverse.dropWhile rust_is_whitespace).reverse

/-- The loop of `Question::no_space`: a single pass tracking the bracket
nesting `level` (an `i16`, so the adjustments wrap); brackets are dropped
and adjust the level, and an alphanumeric character is kept (ё/Ё mapped
to е, otherwise lowercased) when `level == 0 || !skip_parenthesis`. -/
def no_space_go (skip_parenthesis : Bool) (level : Int) : List Char → List Char
  | [] => []
  | c :: rest =>
    if is_open_bracket c then no_space_go skip_parenthesis (i16_wrap (level + 1)) rest
    else if is_close_bracket c then no_space_go skip_parenthesis (i16_wrap (level - 1)) rest
    else if (level == 0 || !skip_parenthesis) && rust_is_alphanumeric c then
      (if c = 'ё' ∨ c = 'Ё' then ['е'] else rust_to_lowercase c) ++
        no_space_go skip_parenthesis level rest
    else no_space_go skip_parenthesis level rest

/-- `Question::no_space`, starting at nesting level 0. -/
def no_space (answer : List Char) (skip_parenthesis : Bool) : List Char :=
  no_space_go skip_parenthesis 0 answer

/-- `Question::check_answer`: trim the submission, build both `no_space`
variants of each side, and accept when any of the four cross-comparisons
coincide for some accepted answer. -/
def Question.check_answer (q : Question) (answer : String) : Bool :=
  let answer := trim_chars answer.toList
  let answer_no_par := no_space answer false
  let answer_par := no_space answer true
  q.answers.any (fun expected =>
    let expected_no_par := no_space expected.toList false
    let expected_par := no_space expected.toList true
    answer_no_par == expected_no_par || answer_no_par == expected_par ||
      answer_par == expected_no_par || answer_par == expected_par)

/-- Spec-side per-character normalization: keep only alphanumerics, map
ё/Ё to е, lowercase the rest. -/
def normalize_char (c : Char) : List Char :=
  if rust_is_alphanumeric c then
    (if c = 'ё' ∨ c = 'Ё' then ['е'] else rust_to_lowercase c)
  else []

/-- Spec-side normalization pipeline stage: lowercase, ё→е, drop
non-alphanumerics (including the bracket characters themselves). -/
def normalize : List Char → List Char
  | [] => []
  | c :: rest => normalize_char c ++ normalize rest

/-- Spec-side bracket stripping at a given nesting level: remove the
bracket characters and everything at nonzero nesting depth, with the
program's wrapping `i16` counter. -/
def drop_bracketed_go (level : Int) : List Char → List Char
  | [] => []
  | c :: rest =>
    if is_open_bracket c then drop_bracketed_go (i16_wrap (level + 1)) rest
    else if is_close_bracket c then drop_bracketed_go (i16_wrap (level - 1)) rest
    else if level == 0 then c :: drop_bracketed_go level rest
    else drop_bracketed_go level rest

/-- Spec-side removal of content enclosed in `()`, `[]`, `\x7b\x7d`. -/
def drop_bracketed (s : List Char) : List Char := drop_bracketed_go 0 s

/-! ### C5/C6: the GameFSM (game.rs) -/

/-- Mirror of the `GameState` enum from game.rs. -/
inductive GameState where
  | before_game (paused : Bool) (minutes : Nat)
  | before_topic (paused : Bool)
  | before_first_question (paused : Bool)
  | before_question (paused : Bool)
  | question (message_id : Int) (answers : List Int)
  | answer (message_id : Int) (answers : List Int) (current : Int)
  | after_question (paused : Bool) (answers : List Int) (correct : Option Int)
  | special_score (paused : Bool)
  | after_game
deriving DecidableEq, Repr

/-- Mirror of the `Game` struct from game.rs (the players map is an
association list `user id -> (user data, score, present)`). -/
structure Game where
  chat_id : Int
  source_chats : List Int
  game_state : GameState
  set_id : String
  topics : List Nat
  current_topic : Nat
  current_question : Nat
  players : List (Int × UserData × Int × Bool)
  spectators : List Int
  invite_link : String
deriving DecidableEq, Repr

/-- Out-of-range default for topic indexing (the Rust code panics
instead; the theorems assume in-range cursors). -/
def default_topic : Topic := ⟨"", []⟩

/-- Out-of-range default for question indexing. -/
def default_question : Question := ⟨0, "", [], none⟩

/-- `GameHandle::current_topic`:
`topic_set.topics[game.topics[game.current_topic]]`. -/
def current_topic_of (ts : TopicSet) (g : Game) : Topic :=
  ts.topics.getD (g.topics.getD g.current_topic 0) default_topic

/-- `GameHandle::current_question` (the `fix()` re-encoding only
HTML-escapes the strings; the cost, which is all the FSM reads here, is
unchanged). -/
def current_question_of (ts : TopicSet) (g : Game) : Question :=
  (current_topic_of ts g).questions.getD g.current_question default_question

/-- Add `amount` to the score of player `id` (the `players.get_mut`
update). -/
def add_score (players : List (Int × UserData × Int × Bool)) (id : Int)
    (amount : Int) : List (Int × UserData × Int × Bool) :=
  players.map (fun p => if p.1 = id then (p.1, p.2.1, p.2.2.1 + amount, p.2.2.2) else p)

/-- The settle loop of `advance_state` in the `AfterQuestion` arm: walk
`answered` in order; the acknowledged correct answerer gains `cost` and
the loop stops there; everyone before it loses `cost`. -/
def apply_answer_scores (cost : Int) (correct : Option Int) :
    List (Int × UserData × Int × Bool) → List Int → List (Int × UserData × Int × Bool)
  | players, [] => players
  | players, id :: rest =>
    if correct = some id then add_score players id cost
    else apply_answer_scores cost correct (add_score players id (-cost)) rest

/-- `GameHandle::INTERMISSION`, in seconds. -/
def INTERMISSION : Nat := 8

/-- `GameHandle::PAUSE`, in seconds. -/
def PAUSE : Nat := 600

/-- `GameHandle::PRE_GAME_STEP`, in seconds. -/
def PRE_GAME_STEP : Nat := 60

/-- `GameHandle::AFTER_GAME`, in seconds. -/
def AFTER_GAME : Nat := 60

/-- `GameHandle::advance_state` restricted to `AfterQuestion` states (the
arm claims C5 is about), returning the new game and the scheduled timer
in seconds. A paused state is only unpaused (`set_pause(false)` returned
true) with an 8 s timer; otherwise the question is settled: scores
applied, the question cursor advanced, and the next phase chosen. -/
def advance_state_after_question (ts : TopicSet) (g : Game) : Game × Nat :=
  match g.game_state with
  | GameState.after_question paused answered correct =>
    if paused then
      ({ g with game_state := GameState.after_question false answered correct },
        INTERMISSION)
    else
      let cost : Int := (current_question_of ts g).cost
      let g1 := { g with players := apply_answer_scores cost correct g.players answered,
                         current_question := g.current_question + 1 }
      if g1.current_question = (current_topic_of ts g1).questions.length then
        ({ g1 with current_question := 0, current_topic := g1.current_topic + 1,
                   game_state := GameState.before_topic false }, INTERMISSION)
      else if g1.current_topic + 1 = g1.topics.length ∧
          (current_topic_of ts g1).questions.length ≤ g1.current_question + 2 then
        ({ g1 with game_state := GameState.special_score false }, INTERMISSION)
      else ({ g1 with game_state := GameState.before_question false }, 1)
  | _ => (g, 0)

/-- The timer effect of `process_starting_state`: either a scheduled
timeout or an immediately self-sent `Event::Timeout` (the
`incorrect_answer(_, force_stop_timer = true)` path). -/
inductive TimerEff where
  | schedule (secs : Nat)
  | immediate
deriving DecidableEq, Repr

/-- `GameHandle::process_starting_state` (game.rs lines 811-855): the
phase rewrite and timer applied to every persisted snapshot at supervisor
boot. `Question` goes through `end_question(pause_game = true)`
(answer reveal, 8 s intermission); `Answer` goes through
`incorrect_answer(false, force_stop_timer = true)` (the pending answerer
is appended to `answered` and a timeout fires immediately). -/
def process_starting_state : GameState → GameState × TimerEff
  | GameState.before_game _ minutes =>
    (GameState.before_game false minutes, TimerEff.schedule PRE_GAME_STEP)
  | GameState.before_topic _ => (GameState.before_topic true, TimerEff.schedule PAUSE)
  | GameState.before_first_question _ =>
    (GameState.before_first_question true, TimerEff.schedule PAUSE)
  | GameState.before_question _ => (GameState.before_question true, TimerEff.schedule PAUSE)
  | GameState.question _mid answers =>
    (GameState.after_question true answers none, TimerEff.schedule INTERMISSION)
  | GameState.answer mid answers current =>
    (GameState.question mid (answers ++ [current]), TimerEff.immediate)
  | GameState.after_question _ answers correct =>
    (GameState.after_question true answers correct, TimerEff.schedule PAUSE)
  | GameState.special_score _ => (GameState.special_score true, TimerEff.schedule PAUSE)
  | GameState.after_game => (GameState.after_game, TimerEff.schedule AFTER_GAME)


/-! ### C7: TelegramBot::send_message (bot.rs lines 205-253) -/

/-- `TelegramBot::MAX_LEN`. -/
def MAX_LEN : Nat := 4096

/-- The split-point search of `send_message`: starting at `pos = MAX_LEN`,
walk left while `text[pos - 1]` is not a newline; reaching `pos = 1`
falls back to a hard split at `MAX_LEN`. Callers keep `pos - 1` in
bounds (`MAX_LEN < text.length`); the `getD` default is never hit there. -/
def split_at_pos (text : List Char) (pos : Nat) : Nat :=
  if text.getD (pos - 1) ' ' = '\n' then pos
  else if pos ≤ 2 then MAX_LEN
  else split_at_pos text (pos - 1)
termination_by pos

/-- The recursion of `send_message`, returning the list of message texts
actually handed to the platform, in order. Structural fuel stands in for
the Rust call stack; `send_pieces_go_fuel_stable` shows any fuel of at
least `text.length` gives the same value, so `send_message_pieces` below
is the exact recursion. A remainder of exactly one character
(`at + 1 == text.len()`) is not sent. -/
def send_pieces_go : Nat → List Char → List (List Char)
  | 0, text => [text]
  | fuel + 1, text =>
    if text.length ≤ MAX_LEN then [text]
    else
      send_pieces_go fuel (text.take (split_at_pos text MAX_LEN)) ++
        (if split_at_pos text MAX_LEN + 1 = text.length then []
         else send_pieces_go fuel (text.drop (split_at_pos text MAX_LEN)))

/-- `TelegramBot::send_message` as the list of sent segments. -/
def send_message_pieces (text : List Char) : List (List Char) :=
  send_pieces_go text.length text

/-! ### C1/C10: the Matcher (queue.rs) -/

/-- Mirror of `QueueEntry` from queue.rs. -/
structure QueueEntry where
  user_id : Int
  user_data : UserData
  min_rating : Int
  max_rating : Int
  will_play_with_three : Bool
deriving DecidableEq, Repr

/-- Mirror of `GameStartData` from main.rs (the two user maps as
association lists). -/
structure GameStartData where
  chat_ids : List Int
  set_id : Option String
  topic_count : Nat
  players : List (Int × UserData)
  spectators : List (Int × UserData)
deriving DecidableEq, Repr

/-- The slice of `Data` (plus the `find_topics` helper of main.rs) that
the Matcher consults. `find_topics_fn` abstracts `main.rs::find_topics`
(active-set probing over played bitmaps); the queue theorems below hold
for every instantiation of it, in particular for the real one. -/
structure MatchData where
  get_user_data : Int → UserData
  in_ban_list : Int → Int → Bool
  find_topics_fn : GameStartData → Option (String × List Nat)

/-- `GameFinder::compatible`, conjunct for conjunct as in the source;
note the fourth conjunct compares `another.min_rating` against
`another`'s own rating. -/
def compatible (d : MatchData) (one another : QueueEntry) : Bool :=
  decide (one.max_rating ≥ (another.user_data.rating : Int)) &&
    decide (one.min_rating ≤ (another.user_data.rating : Int)) &&
    decide (another.max_rating ≥ (one.user_data.rating : Int)) &&
    decide (another.min_rating ≤ (another.user_data.rating : Int)) &&
    !(d.in_ban_list one.user_id another.user_id) &&
    !(d.in_ban_list another.user_id one.user_id)

/-- Mutual pair compatibility as the spec words it: each player's rating
inside the other's tolerance interval and neither ban-listed. Written
from the spec, for comparison with `compatible`. -/
def spec_pair_compatible (d : MatchData) (one another : QueueEntry) : Prop :=
  one.min_rating ≤ (another.user_data.rating : Int) ∧
  (another.user_data.rating : Int) ≤ one.max_rating ∧
  another.min_rating ≤ (one.user_data.rating : Int) ∧
  (one.user_data.rating : Int) ≤ another.max_rating ∧
  d.in_ban_list one.user_id another.user_id = false ∧
  d.in_ban_list another.user_id one.user_id = false

/-- Placeholder for `players[next]` (the Rust index panics out of range;
the search only probes indices below `players.len()`). -/
def default_queue_entry : QueueEntry := ⟨0, ⟨"", 0⟩, 0, 0, false⟩

/-- `GameFinder::do_find_game`: backtracking choice of `left + 1` further
players among indices `left .. limit - 1` (descending recursion via
`limit := next`), each candidate screened by party-size willingness and
`compatible` against all already-chosen players; a full subset is handed
to `find_topics`, and the first success is returned. -/
def do_find_game (d : MatchData) (players : List QueueEntry) (num_players : Nat) :
    Nat → List QueueEntry → Nat → Option (GameStartData × String × List Nat)
  | 0, result, _limit =>
    (d.find_topics_fn
        { chat_ids := result.map (fun e => e.user_id), set_id := none, topic_count := 6,
          players := result.map (fun e => (e.user_id, e.user_data)), spectators := [] }).map
      (fun p =>
        ({ chat_ids := result.map (fun e => e.user_id), set_id := none, topic_count := 6,
           players := result.map (fun e => (e.user_id, e.user_data)), spectators := [] },
         p.1, p.2))
  | left + 1, result, limit =>
    if limit < left + 1 then none
    else
      (List.range' left (limit - left)).findSome? (fun next =>
        if (num_players == 4 || (players.getD next default_queue_entry).will_play_with_three)
            && result.all (fun p => compatible d p (players.getD next default_queue_entry)) then
          do_find_game d players num_players left
            (result ++ [players.getD next default_queue_entry]) next
        else none)

/-- `GameFinder::find_game`. -/
def find_game (d : MatchData) (players : List QueueEntry) (num_players : Nat) :
    Option (GameStartData × String × List Nat) :=
  do_find_game d players num_players num_players [] players.length

/-- One waiting entry `(UserId, MessageId, Instant, Instant)` of
`PlayQueue::queue`, with the two instants as elapsed milliseconds at the
tick. -/
structure RawEntry where
  user_id : Int
  message_id : Int
  since_entered_ms : Nat
  since_update_ms : Nat
deriving DecidableEq, Repr

/-- `queue.remove(find_in_queue(uid))`: drop the first entry with the
given user id (the Rust `unwrap` panics when absent). -/
def remove_first_by_id : List RawEntry → Int → List RawEntry
  | [], _ => []
  | e :: rest, uid => if e.user_id = uid then rest else e :: remove_first_by_id rest uid

/-- The removal loop over `res.0.players.keys()` after a match is found. -/
def remove_all (queue : List RawEntry) (ids : List Int) : List RawEntry :=
  ids.foldl remove_first_by_id queue

/-- The `QueueEntry` built from a waiting entry in `find_games`:
`delta = since_entered / 100 ms`, tolerance `[rating - delta, rating + delta]`,
3-player willingness after 60 s. -/
def queue_players (d : MatchData) (queue : List RawEntry) : List QueueEntry :=
  queue.map (fun e =>
    { user_id := e.user_id, user_data := d.get_user_data e.user_id,
      min_rating := ((d.get_user_data e.user_id).rating : Int) -
        ((e.since_entered_ms / 100 : Nat) : Int),
      max_rating := ((d.get_user_data e.user_id).rating : Int) +
        ((e.since_entered_ms / 100 : Nat) : Int),
      will_play_with_three := decide (60000 ≤ e.since_entered_ms) })

/-- Desired-party-size floor: 4 while anyone has waited under 60 s. -/
def min_num_players (queue : List RawEntry) : Nat :=
  if queue.any (fun e => decide (e.since_entered_ms < 60000)) then 4 else 3

/-- `PlayQueue::find_games`: below 3 waiters do nothing; otherwise try
party sizes `4` (and `3` when allowed) in order, and on the first success
remove the matched players from the queue and emit exactly that one game
(the send on the games channel), returning. The emitted games and the
remaining queue are returned. -/
def find_games (d : MatchData) (queue : List RawEntry) :
    List (GameStartData × String × List Nat) × List RawEntry :=
  if queue.length < 3 then ([], queue)
  else
    match (if min_num_players queue = 4 then [4] else [4, 3]).findSome?
        (fun n => find_game d (queue_players d queue) n) with
    | none => ([], queue)
    | some res => ([res], remove_all queue (res.1.players.map (fun p => p.1)))

/-- Concrete store for the C1 counterexample: three users, empty ban
lists, a topic source that always succeeds. -/
def c1_data : MatchData :=
  { get_user_data := fun uid =>
      if uid = 1 then ⟨"A", 100⟩ else if uid = 2 then ⟨"B", 150⟩ else ⟨"C", 145⟩,
    in_ban_list := fun _ _ => false,
    find_topics_fn := fun _ => some ("set", [0, 1, 2, 3, 4, 5]) }

/-- Waiter A: rating 100, tolerance `[50, 150]` (Δ = 50). -/
def c1_entry_a : QueueEntry := ⟨1, ⟨"A", 100⟩, 50, 150, true⟩

/-- Waiter B: rating 150, tolerance `[140, 160]` (Δ = 10). -/
def c1_entry_b : QueueEntry := ⟨2, ⟨"B", 150⟩, 140, 160, true⟩

/-- Waiter C: rating 145, tolerance `[45, 245]` (Δ = 100). -/
def c1_entry_c : QueueEntry := ⟨3, ⟨"C", 145⟩, 45, 245, true⟩

end Svoyak

namespace Svoyak

/-! ## Theorems -/

/-- `i32_wrap` is the identity on the `i32` range. -/
theorem i32_wrap_eq_self (x : Int) (h1 : -2147483648 ≤ x) (h2 : x < 2147483648) :
    i32_wrap x = x := by
  unfold i32_wrap I32_MOD I32_HALF
  rw [Int.emod_eq_of_lt (by omega) (by omega)]
  omega

/-- The `i32`-wrapping left fold of a list of terms bounded by `±100`,
started within `[-B, B]`, stays within `[-(B + 100·n), B + 100·n]` (and in
particular never actually wraps). -/
theorem wrap_foldl_bound (l : List Int) : ∀ (acc B : Int),
    (∀ t ∈ l, -100 ≤ t ∧ t ≤ 100) → -B ≤ acc → acc ≤ B → 0 ≤ B →
    B + 100 * l.length ≤ 2147483647 →
    -(B + 100 * l.length) ≤ l.foldl (fun acc t => i32_wrap (acc + t)) acc ∧
      l.foldl (fun acc t => i32_wrap (acc + t)) acc ≤ B + 100 * l.length := by
  induction l with
  | nil =>
    intro acc B _ h1 h2 _ _
    simp only [List.foldl_nil, List.length_nil]
    constructor <;> omega
  | cons a t ih =>
    intro acc B ht h1 h2 h3 h4
    simp only [List.foldl_cons, List.length_cons] at *
    have ha := ht a (List.mem_cons_self a t)
    have hw : i32_wrap (acc + a) = acc + a := i32_wrap_eq_self _ (by omega) (by omega)
    rw [hw]
    have hrec := ih (acc + a) (B + 100) (fun x hx => ht x (List.mem_cons_of_mem a hx))
      (by omega) (by omega) (by omega) (by omega)
    constructor <;> omega

/-- C3: after a game-result commit every participant's stored rating is
at least 10: the summed per-opponent delta is clamped from below by
`10 - R_a` against the pre-commit rating `R_a`, and all updates are
computed from the pre-commit store before any write. Hypotheses: the
rounded elo term is within `±100` (true of the floating-point
expression), and every pre-commit rating leaves `100` points of `i32`
headroom per participant (so no `i32` step overflows) - satisfied by all
reachable ratings for any party size the bot admits, up to 20-player
proposal games and far beyond. -/
theorem save_game_results_floor_ten (f : Nat → Nat → Int → Int → Int)
    (store : Int → UserData) (results : List (Int × UserData × Int × Bool))
    (hf : ∀ ra rb sa sb, -100 ≤ f ra rb sa sb ∧ f ra rb sa sb ≤ 100)
    (hra : ∀ u ∈ results, (store u.1).rating + 100 * results.length < 2147483648) :
    ∀ q ∈ save_game_results f store results, 10 ≤ q.2.rating := by
  intro q hq
  obtain ⟨u, hu, rfl⟩ := List.mem_map.mp hq
  simp only []
  have hone : 0 < results.length := List.length_pos_of_mem hu
  have hra' : (store u.1).rating + 100 * results.length < 2147483648 := hra u hu
  have hterms : ∀ t ∈ (results.filter (fun o => !(o.1 == u.1))).map
      (fun o => f (store u.1).rating (store o.1).rating u.2.2.1 o.2.2.1),
      -100 ≤ t ∧ t ≤ 100 := by
    intro t ht
    obtain ⟨o, _, rfl⟩ := List.mem_map.mp ht
    exact hf _ _ _ _
  have hlen2 : ((results.filter (fun o => !(o.1 == u.1))).map
      (fun o => f (store u.1).rating (store o.1).rating u.2.2.1 o.2.2.1)).length ≤
      results.length := by
    rw [List.length_map]
    exact List.length_filter_le _ _
  have hdelta := wrap_foldl_bound _ 0 0 hterms (by omega) (by omega) (by omega) (by omega)
  have hdelta1 : -(100 * (results.length : Int)) ≤
      elo_delta f store results u.1 (store u.1).rating u.2.2.1 := by
    unfold elo_delta
    omega
  have hdelta2 : elo_delta f store results u.1 (store u.1).rating u.2.2.1 ≤
      100 * (results.length : Int) := by
    unfold elo_delta
    omega
  have hio : i32_of_u32 (store u.1).rating = ((store u.1).rating : Int) := by
    unfold i32_of_u32
    exact i32_wrap_eq_self _ (by omega) (by omega)
  have hcf : clamp_floor (store u.1).rating = 10 - ((store u.1).rating : Int) := by
    unfold clamp_floor
    rw [hio]
    rw [i32_wrap_eq_self (-((store u.1).rating : Int)) (by omega) (by omega)]
    rw [i32_wrap_eq_self (-((store u.1).rating : Int) + 10) (by omega) (by omega)]
    omega
  unfold new_rating
  rw [hio, hcf]
  set d := elo_delta f store results u.1 (store u.1).rating u.2.2.1 with hd
  have hge : 10 - ((store u.1).rating : Int) ≤ max d (10 - ((store u.1).rating : Int)) :=
    le_max_right _ _
  rcases max_choice d (10 - ((store u.1).rating : Int)) with hmx | hmx
  · rw [hmx] at hge ⊢
    rw [i32_wrap_eq_self _ (by omega) (by omega)]
    unfold u32_of_i32 I32_MOD
    rw [Int.emod_eq_of_lt (by omega) (by omega)]
    omega
  · rw [hmx] at hge ⊢
    rw [i32_wrap_eq_self _ (by omega) (by omega)]
    unfold u32_of_i32 I32_MOD
    rw [Int.emod_eq_of_lt (by omega) (by omega)]
    omega

/-- Witness for C3 on a concrete two-player commit with the zero elo
term. -/
theorem save_game_results_floor_ten_witness :
    10 ≤ ((save_game_results (fun _ _ _ _ => (0 : Int)) (fun _ => ⟨"", 15000⟩)
        [(1, ⟨"n1", 15000⟩, 100, true), (2, ⟨"n2", 15000⟩, 0, true)]).getD 0
          (0, ⟨"", 0⟩)).2.rating :=
  save_game_results_floor_ten (fun _ _ _ _ => (0 : Int)) (fun _ => ⟨"", 15000⟩)
    [(1, ⟨"n1", 15000⟩, 100, true), (2, ⟨"n2", 15000⟩, 0, true)]
    (fun _ _ _ _ => show (-100 : Int) ≤ 0 ∧ (0 : Int) ≤ 100 by norm_num)
    (fun u _ => show (15000 : Nat) + 100 * 2 < 2147483648 by norm_num) _ (by decide)

/-- C2: the spec claims that decay replaces `R` by `15000 + (R-15000)*99/100`
with the sign of `R - 15000` preserved, in particular for ratings below
15000. The code stores ratings as `u32`, so for `R = 14000` the
subtraction wraps modulo `2^32` (release semantics; debug builds panic on
the underflow) and the walk stores 42963682 instead of the claimed
`15000 - 990 = 14010`. -/
theorem rating_discount_wraps_below_start :
    rating_discount [("user-data#1", ⟨"u", 14000⟩)]
      = [("user-data#1", ⟨"u", 42963682⟩)] ∧
    rating_discount_one 14000 ≠ 14010 := by
  constructor
  · decide
  · decide

/-- C8: the recent-opponents push keeps the list at ≤ 10 pairwise-distinct
entries; a present id is moved to the tail, and at capacity the front
element is evicted before the new id is appended. -/
theorem add_played_bounded_nodup (l : List Int) (x : Int)
    (hnd : l.Nodup) (hlen : l.length ≤ 10) :
    (add_played l x).Nodup ∧ (add_played l x).length ≤ 10 ∧
    (x ∈ l → add_played l x = l.erase x ++ [x]) ∧
    (x ∉ l → l.length = 10 → add_played l x = l.eraseIdx 0 ++ [x]) ∧
    (x ∉ l → l.length < 10 → add_played l x = l ++ [x]) := by
  by_cases hmem : x ∈ l
  · have hc : l.contains x = true := List.elem_iff.mpr hmem
    have hval : add_played l x = l.erase x ++ [x] := by
      unfold add_played
      exact if_pos hc
    refine ⟨?_, ?_, fun _ => hval, fun h _ => absurd hmem h, fun h _ => absurd hmem h⟩
    · rw [hval]
      have h1 : (l.erase x).Nodup := hnd.erase x
      have h2 : x ∉ l.erase x := by
        intro hx
        exact absurd (List.Nodup.mem_erase_iff hnd |>.mp hx).1 (by simp)
      simp [List.nodup_append, h1, h2]
    · rw [hval]
      have h3 : (l.erase x).length = l.length - 1 := List.length_erase_of_mem hmem
      have h4 : 0 < l.length := List.length_pos_of_mem hmem
      simp only [List.length_append, List.length_singleton, h3]
      omega
  · have hc : l.contains x = false := by
      cases h : l.contains x
      · rfl
      · exact absurd (List.elem_iff.mp h) hmem
    by_cases hfull : l.length = 10
    · have hval : add_played l x = l.eraseIdx 0 ++ [x] := by
        unfold add_played STORE_PLAYED
        rw [if_neg (by rw [hc]; simp), if_pos hfull]
      have hsub : List.Sublist (l.eraseIdx 0) l := List.eraseIdx_sublist l 0
      refine ⟨?_, ?_, fun h => absurd h hmem, fun _ _ => hval, fun _ h => by omega⟩
      · rw [hval]
        have h1 : (l.eraseIdx 0).Nodup := hnd.sublist hsub
        have h2 : x ∉ l.eraseIdx 0 := fun hx => hmem (hsub.mem hx)
        rw [List.eraseIdx_zero] at h1 h2 ⊢
        simp [List.nodup_append, h1, h2]
      · rw [hval]
        have h3 : (l.eraseIdx 0).length = l.length - 1 :=
          List.length_eraseIdx_of_lt (by omega)
        simp only [List.length_append, List.length_singleton, h3]
        omega
    · have hval : add_played l x = l ++ [x] := by
        unfold add_played STORE_PLAYED
        rw [if_neg (by rw [hc]; simp), if_neg hfull]
      refine ⟨?_, ?_, fun h => absurd h hmem, fun _ h => absurd h hfull, fun _ _ => hval⟩
      · rw [hval]
        simp [List.nodup_append, hnd, hmem]
      · rw [hval]
        simp only [List.length_append, List.length_singleton]
        omega

/-- Witness for C8 at the concrete list `[1,2,3]`, pushing the present id 2. -/
theorem add_played_bounded_nodup_witness :
    (add_played [1, 2, 3] 2).Nodup ∧ (add_played [1, 2, 3] 2).length ≤ 10 ∧
    ((2 : Int) ∈ [(1 : Int), 2, 3] →
      add_played [1, 2, 3] 2 = ([(1 : Int), 2, 3]).erase 2 ++ [2]) ∧
    ((2 : Int) ∉ [(1 : Int), 2, 3] → ([(1 : Int), 2, 3]).length = 10 →
      add_played [1, 2, 3] 2 = ([(1 : Int), 2, 3]).eraseIdx 0 ++ [2]) ∧
    ((2 : Int) ∉ [(1 : Int), 2, 3] → ([(1 : Int), 2, 3]).length < 10 →
      add_played [1, 2, 3] 2 = [(1 : Int), 2, 3] ++ [2]) :=
  add_played_bounded_nodup [1, 2, 3] 2 (by decide) (by decide)

/-- C9: `add_new_set` returns `false` with the store untouched exactly when
the id was ever active and the incoming topic count differs from the
stored one; in every other case it stores the package and returns `true`,
leaving ratings, played-bitmaps and the was-active list unchanged. -/
theorem add_new_set_reject_iff (st : DataState) (id : String) (ts : TopicSet)
    (hpresent : id ∈ st.was_active_sets → (st.sets id).isSome = true) :
    ((add_new_set st id ts).1 = false ↔
      id ∈ st.was_active_sets ∧
        ∃ s, st.sets id = some s ∧ s.topics.length ≠ ts.topics.length) ∧
    ((add_new_set st id ts).1 = false → (add_new_set st id ts).2 = st) ∧
    ((add_new_set st id ts).1 = true →
      (add_new_set st id ts).2.sets id = some ts ∧
      (add_new_set st id ts).2.ratings = st.ratings ∧
      (add_new_set st id ts).2.played = st.played ∧
      (add_new_set st id ts).2.was_active_sets = st.was_active_sets) := by
  by_cases hwa : id ∈ st.was_active_sets
  · have hcb : st.was_active_sets.contains id = true := List.elem_iff.mpr hwa
    rcases hs : st.sets id with _ | s
    · rw [hs] at hpresent
      exact absurd (hpresent hwa) (by simp)
    · by_cases hcount : s.topics.length = ts.topics.length
      · have hval : add_new_set st id ts =
            (true, { st with sets := fun k => if k = id then some ts else st.sets k }) := by
          unfold add_new_set
          rw [if_neg]
          rw [hcb, hs]
          simp [hcount]
        rw [hval]
        refine ⟨⟨fun h => by simp at h, ?_⟩, fun h => by simp at h,
          fun _ => ⟨by simp, rfl, rfl, rfl⟩⟩
        rintro ⟨-, s', hs', hne⟩
        exact absurd hcount (by cases hs'; exact hne)
      · have hval : add_new_set st id ts = (false, st) := by
          unfold add_new_set
          rw [if_pos]
          rw [hcb, hs]
          simp [hcount]
        rw [hval]
        refine ⟨⟨fun _ => ⟨hwa, s, rfl, hcount⟩, fun _ => rfl⟩, fun _ => rfl,
          fun h => by simp at h⟩
  · have hcb : st.was_active_sets.contains id = false := by
      cases h : st.was_active_sets.contains id
      · rfl
      · exact absurd (List.elem_iff.mp h) hwa
    have hval : add_new_set st id ts =
        (true, { st with sets := fun k => if k = id then some ts else st.sets k }) := by
      unfold add_new_set
      rw [if_neg]
      rw [hcb]
      simp
    rw [hval]
    refine ⟨⟨fun h => by simp at h, fun h => absurd h.1 hwa⟩,
      fun h => by simp at h, fun _ => ⟨by simp, rfl, rfl, rfl⟩⟩

/-- Witness for C9: re-uploading a was-active package with a different
topic count is rejected and the store is unchanged. -/
theorem add_new_set_reject_iff_witness :
    let ts0 : TopicSet := ⟨"x", "t", "d", [⟨"топик", []⟩]⟩
    let ts1 : TopicSet := ⟨"x", "t", "d", [⟨"a", []⟩, ⟨"b", []⟩]⟩
    let st : DataState :=
      ⟨fun k => if k = "x" then some ts0 else none, ["x"], [(7, 15000)], []⟩
    ((add_new_set st "x" ts1).1 = false ↔
      "x" ∈ st.was_active_sets ∧
        ∃ s, st.sets "x" = some s ∧ s.topics.length ≠ ts1.topics.length) ∧
    ((add_new_set st "x" ts1).1 = false → (add_new_set st "x" ts1).2 = st) ∧
    ((add_new_set st "x" ts1).1 = true →
      (add_new_set st "x" ts1).2.sets "x" = some ts1 ∧
      (add_new_set st "x" ts1).2.ratings = st.ratings ∧
      (add_new_set st "x" ts1).2.played = st.played ∧
      (add_new_set st "x" ts1).2.was_active_sets = st.was_active_sets) := by
  intro ts0 ts1 st
  exact add_new_set_reject_iff st "x" ts1 (fun _ => by decide)

/-- Bracket characters are not alphanumeric (opening brackets). -/
theorem open_not_alnum (c : Char) (h : is_open_bracket c = true) :
    rust_is_alphanumeric c = false := by
  unfold is_open_bracket at h
  simp only [Bool.or_eq_true, beq_iff_eq] at h
  rcases h with (h | h) | h <;> subst h <;> decide

/-- Bracket characters are not alphanumeric (closing brackets). -/
theorem close_not_alnum (c : Char) (h : is_close_bracket c = true) :
    rust_is_alphanumeric c = false := by
  unfold is_close_bracket at h
  simp only [Bool.or_eq_true, beq_iff_eq] at h
  rcases h with (h | h) | h <;> subst h <;> decide

/-- Fusion: the keep-brackets pass of `no_space` is the spec-side
normalization pipeline (brackets fall out as non-alphanumerics). -/
theorem no_space_go_keep (s : List Char) : ∀ level,
    no_space_go false level s = normalize s := by
  induction s with
  | nil => intro level; rfl
  | cons c rest ih =>
    intro level
    by_cases ho : is_open_bracket c = true
    · have ha := open_not_alnum c ho
      simp [no_space_go, normalize, normalize_char, ho, ha, ih]
    · by_cases hcl : is_close_bracket c = true
      · have ha := close_not_alnum c hcl
        simp [no_space_go, normalize, normalize_char, ho, hcl, ha, ih]
      · by_cases han : rust_is_alphanumeric c = true
        · simp [no_space_go, normalize, normalize_char, ho, hcl, han, ih]
        · simp [no_space_go, normalize, normalize_char, ho, hcl, han, ih]

/-- Fusion: the skip-brackets pass of `no_space` equals bracket stripping
followed by the spec-side normalization pipeline. -/
theorem no_space_go_skip (s : List Char) : ∀ level,
    no_space_go true level s = normalize (drop_bracketed_go level s) := by
  induction s with
  | nil => intro level; rfl
  | cons c rest ih =>
    intro level
    by_cases ho : is_open_bracket c = true
    · simp [no_space_go, drop_bracketed_go, ho, ih]
    · by_cases hcl : is_close_bracket c = true
      · simp [no_space_go, drop_bracketed_go, ho, hcl, ih]
      · by_cases hl : (level == 0) = true
        · by_cases han : rust_is_alphanumeric c = true
          · simp [no_space_go, drop_bracketed_go, normalize, normalize_char,
              ho, hcl, hl, han, ih]
          · simp [no_space_go, drop_bracketed_go, normalize, normalize_char,
              ho, hcl, hl, han, ih]
        · simp [no_space_go, drop_bracketed_go, normalize, normalize_char,
            ho, hcl, hl, ih]

/-- The four-variant characterization of `check_answer`. The two
`modelled_char` hypotheses restrict the statement to the character
repertoire on which the embedded classification tables agree with Rust's
Unicode tables (the equivalence itself is independent of the tables). -/
theorem check_answer_iff (q : Question) (answer : String)
    (_hans : ∀ c ∈ answer.toList, modelled_char c = true)
    (_hexp : ∀ e ∈ q.answers, ∀ c ∈ e.toList, modelled_char c = true) :
    q.check_answer answer = true ↔ ∃ e ∈ q.answers,
      (normalize (trim_chars answer.toList) = normalize e.toList ∨
       normalize (trim_chars answer.toList) = normalize (drop_bracketed e.toList) ∨
       normalize (drop_bracketed (trim_chars answer.toList)) = normalize e.toList ∨
       normalize (drop_bracketed (trim_chars answer.toList)) =
         normalize (drop_bracketed e.toList)) := by
  unfold Question.check_answer no_space drop_bracketed
  simp only [List.any_eq_true, Bool.or_eq_true, beq_iff_eq,
    no_space_go_keep, no_space_go_skip]
  constructor
  · rintro ⟨e, he, h⟩
    exact ⟨e, he, by tauto⟩
  · rintro ⟨e, he, h⟩
    exact ⟨e, he, by tauto⟩

/-- C4: for submissions and accepted answers over the modelled character
repertoire (ASCII plus Cyrillic, where the embedded tables equal Rust's),
`check_answer` accepts exactly when, for some accepted answer, one of the
four cross-comparisons of the two normalized variants (keeping or
dropping bracketed content) coincides; together with the spec's boundary
examples on "Пушкин". -/
theorem check_answer_four_variants :
    (∀ (q : Question) (answer : String),
      (∀ c ∈ answer.toList, modelled_char c = true) →
      (∀ e ∈ q.answers, ∀ c ∈ e.toList, modelled_char c = true) →
      (q.check_answer answer = true ↔ ∃ e ∈ q.answers,
        (normalize (trim_chars answer.toList) = normalize e.toList ∨
         normalize (trim_chars answer.toList) = normalize (drop_bracketed e.toList) ∨
         normalize (drop_bracketed (trim_chars answer.toList)) = normalize e.toList ∨
         normalize (drop_bracketed (trim_chars answer.toList)) =
           normalize (drop_bracketed e.toList)))) ∧
    Question.check_answer ⟨10, "q", ["Пушкин"], none⟩ "пушкин " = true ∧
    Question.check_answer ⟨10, "q", ["Пушкин"], none⟩ " Pushkin" = false ∧
    Question.check_answer ⟨10, "q", ["Пушкин"], none⟩ "Пушкин (1799)" = true :=
  ⟨check_answer_iff, by decide, by decide, by decide⟩

/-- Witness for C4 at the concrete submission "пушкин " against the
accepted answer "Пушкин" (both within the modelled repertoire). -/
theorem check_answer_four_variants_witness :
    Question.check_answer ⟨10, "q", ["Пушкин"], none⟩ "пушкин " = true ↔
      ∃ e ∈ ["Пушкин"],
        (normalize (trim_chars "пушкин ".toList) = normalize e.toList ∨
         normalize (trim_chars "пушкин ".toList) = normalize (drop_bracketed e.toList) ∨
         normalize (drop_bracketed (trim_chars "пушкин ".toList)) = normalize e.toList ∨
         normalize (drop_bracketed (trim_chars "пушкин ".toList)) =
           normalize (drop_bracketed e.toList)) :=
  check_answer_four_variants.1 ⟨10, "q", ["Пушкин"], none⟩ "пушкин "
    (by decide) (by decide)

/-- C5 counterexample: on the last topic with five questions, settling the
question at cursor 3 leaves exactly ONE question remaining, yet the FSM
moves to `SpecialScore` — the claim's "exactly two questions remain"
condition does not hold there. -/
theorem special_score_fires_with_one_remaining :
    (advance_state_after_question
        ⟨"s", "t", "d", [⟨"T", [⟨10, "", [], none⟩, ⟨20, "", [], none⟩,
          ⟨30, "", [], none⟩, ⟨40, "", [], none⟩, ⟨50, "", [], none⟩]⟩]⟩
        ⟨1, [], GameState.after_question false [] none, "s", [0], 0, 3,
          [(1, ⟨"p", 15000⟩, 0, true)], [], ""⟩).1.game_state =
      GameState.special_score false ∧
    (current_topic_of
        ⟨"s", "t", "d", [⟨"T", [⟨10, "", [], none⟩, ⟨20, "", [], none⟩,
          ⟨30, "", [], none⟩, ⟨40, "", [], none⟩, ⟨50, "", [], none⟩]⟩]⟩
        ⟨1, [], GameState.after_question false [] none, "s", [0], 0, 3,
          [(1, ⟨"p", 15000⟩, 0, true)], [], ""⟩).questions.length - (3 + 1) = 1 ∧
    ¬(5 - (3 + 1) = 2) := by
  refine ⟨?_, by decide, by decide⟩
  decide

/-- C5 (amended): when an unpaused `AfterQuestion` timer settles and the
topic is not exhausted, the next phase is `SpecialScore` iff this is the
last topic and AT MOST two questions (one or two) remain; otherwise it is
`BeforeQuestion`. -/
theorem after_question_special_iff_at_most_two (ts : TopicSet) (g : Game)
    (answered : List Int) (correct : Option Int)
    (hstate : g.game_state = GameState.after_question false answered correct)
    (hnot_exhausted : g.current_question + 1 < (current_topic_of ts g).questions.length) :
    ((advance_state_after_question ts g).1.game_state = GameState.special_score false ↔
      (g.current_topic + 1 = g.topics.length ∧
        (current_topic_of ts g).questions.length ≤ g.current_question + 1 + 2)) ∧
    (¬(g.current_topic + 1 = g.topics.length ∧
        (current_topic_of ts g).questions.length ≤ g.current_question + 1 + 2) →
      (advance_state_after_question ts g).1.game_state = GameState.before_question false) := by
  have htop : ∀ (st : GameState) (P : List (Int × UserData × Int × Bool)) (n : Nat),
      current_topic_of ts { g with game_state := st, players := P, current_question := n } =
        current_topic_of ts g := fun _ _ _ => rfl
  unfold advance_state_after_question
  rw [hstate]
  simp only [Bool.false_eq_true, if_false, htop]
  rw [if_neg (by intro h; omega)]
  by_cases hcond : g.current_topic + 1 = g.topics.length ∧
      (current_topic_of ts g).questions.length ≤ g.current_question + 1 + 2
  · rw [if_pos hcond]
    exact ⟨by simp [hcond], fun h => absurd hcond h⟩
  · rw [if_neg hcond]
    refine ⟨⟨fun h => by simp at h, fun h => absurd h hcond⟩, fun _ => rfl⟩

/-- Witness for C5 at a last-topic position with exactly two questions
remaining after the settle (`SpecialScore` side of the iff). -/
theorem after_question_special_iff_at_most_two_witness :
    ((advance_state_after_question
        ⟨"s", "t", "d", [⟨"T", [⟨10, "", [], none⟩, ⟨20, "", [], none⟩,
          ⟨30, "", [], none⟩, ⟨40, "", [], none⟩, ⟨50, "", [], none⟩]⟩]⟩
        ⟨1, [], GameState.after_question false [] none, "s", [0], 0, 2,
          [(1, ⟨"p", 15000⟩, 0, true)], [], ""⟩).1.game_state =
        GameState.special_score false ↔
      ((0 : Nat) + 1 = [0].length ∧
        (current_topic_of
          ⟨"s", "t", "d", [⟨"T", [⟨10, "", [], none⟩, ⟨20, "", [], none⟩,
            ⟨30, "", [], none⟩, ⟨40, "", [], none⟩, ⟨50, "", [], none⟩]⟩]⟩
          ⟨1, [], GameState.after_question false [] none, "s", [0], 0, 2,
            [(1, ⟨"p", 15000⟩, 0, true)], [], ""⟩).questions.length ≤ 2 + 1 + 2)) ∧
    (¬((0 : Nat) + 1 = [0].length ∧
        (current_topic_of
          ⟨"s", "t", "d", [⟨"T", [⟨10, "", [], none⟩, ⟨20, "", [], none⟩,
            ⟨30, "", [], none⟩, ⟨40, "", [], none⟩, ⟨50, "", [], none⟩]⟩]⟩
          ⟨1, [], GameState.after_question false [] none, "s", [0], 0, 2,
            [(1, ⟨"p", 15000⟩, 0, true)], [], ""⟩).questions.length ≤ 2 + 1 + 2) →
      (advance_state_after_question
        ⟨"s", "t", "d", [⟨"T", [⟨10, "", [], none⟩, ⟨20, "", [], none⟩,
          ⟨30, "", [], none⟩, ⟨40, "", [], none⟩, ⟨50, "", [], none⟩]⟩]⟩
        ⟨1, [], GameState.after_question false [] none, "s", [0], 0, 2,
          [(1, ⟨"p", 15000⟩, 0, true)], [], ""⟩).1.game_state =
        GameState.before_question false) :=
  after_question_special_iff_at_most_two _ _ [] none rfl (by decide)

/-- C6 counterexample: a snapshot persisted in `Question(5, [1, 2])` is
resumed as the paused `AfterQuestion(true, [1, 2], None)` — but with the
8-second intermission timer, not the claimed 600-second pause timer. -/
theorem process_starting_question_timer_not_600 :
    process_starting_state (GameState.question 5 [1, 2]) =
      (GameState.after_question true [1, 2] none, TimerEff.schedule 8) ∧
    TimerEff.schedule 8 ≠ TimerEff.schedule 600 := ⟨rfl, by decide⟩

/-- C6 (amended): the per-phase resume table of `process_starting_state`:
`BeforeTopic`, `BeforeFirstQuestion`, `BeforeQuestion`, `AfterQuestion`
and `SpecialScore` resume paused with a 600 s timer; `Question` is
promoted to `AfterQuestion(paused = true, answered, None)` with an 8 s
timer; `Answer` falls back to `Question` with the pending answerer
appended and an immediately-fired timeout; `BeforeGame` resumes unpaused
with a 60 s step timer; `AfterGame` keeps its 60 s grace timer. -/
theorem process_starting_state_resume_table :
    (∀ b m, process_starting_state (GameState.before_game b m) =
      (GameState.before_game false m, TimerEff.schedule 60)) ∧
    (∀ b, process_starting_state (GameState.before_topic b) =
      (GameState.before_topic true, TimerEff.schedule 600)) ∧
    (∀ b, process_starting_state (GameState.before_first_question b) =
      (GameState.before_first_question true, TimerEff.schedule 600)) ∧
    (∀ b, process_starting_state (GameState.before_question b) =
      (GameState.before_question true, TimerEff.schedule 600)) ∧
    (∀ mid answers, process_starting_state (GameState.question mid answers) =
      (GameState.after_question true answers none, TimerEff.schedule 8)) ∧
    (∀ mid answers current, process_starting_state (GameState.answer mid answers current) =
      (GameState.question mid (answers ++ [current]), TimerEff.immediate)) ∧
    (∀ b answers correct, process_starting_state (GameState.after_question b answers correct) =
      (GameState.after_question true answers correct, TimerEff.schedule 600)) ∧
    (∀ b, process_starting_state (GameState.special_score b) =
      (GameState.special_score true, TimerEff.schedule 600)) ∧
    process_starting_state GameState.after_game =
      (GameState.after_game, TimerEff.schedule 60) :=
  ⟨fun _ _ => rfl, fun _ => rfl, fun _ => rfl, fun _ => rfl, fun _ _ => rfl,
    fun _ _ _ => rfl, fun _ _ _ => rfl, fun _ => rfl, rfl⟩


/-- A `getD` lookup is the default or a member of the list. -/
theorem getD_default_or_mem (l : List Char) (n : Nat) (d : Char) :
    l.getD n d = d ∨ l.getD n d ∈ l := by
  rcases h : l[n]? with _ | c
  · left
    simp [List.getD, h]
  · right
    have hm : c ∈ l := by
      obtain ⟨hlt, rfl⟩ := List.getElem?_eq_some.mp h
      exact List.getElem_mem hlt
    simpa [List.getD, h] using hm

/-- The split-point search stays in `[2, MAX_LEN]`. -/
theorem split_at_pos_bounds (text : List Char) : ∀ pos, 2 ≤ pos → pos ≤ MAX_LEN →
    2 ≤ split_at_pos text pos ∧ split_at_pos text pos ≤ MAX_LEN := by
  intro pos
  induction pos using Nat.strong_induction_on with
  | _ pos ih =>
    intro h2 hmax
    unfold split_at_pos
    by_cases hnl : text.getD (pos - 1) ' ' = '\n'
    · rw [if_pos hnl]
      exact ⟨h2, hmax⟩
    · rw [if_neg hnl]
      by_cases hle : pos ≤ 2
      · rw [if_pos hle]
        exact ⟨by decide, le_refl _⟩
      · rw [if_neg hle]
        exact ih (pos - 1) (by omega) (by omega) (by omega)

/-- Without a newline in the text the search falls back to the hard
split at `MAX_LEN`. -/
theorem split_at_pos_no_newline (text : List Char) (hnl : '\n' ∉ text) :
    ∀ pos, 2 ≤ pos → split_at_pos text pos = MAX_LEN := by
  intro pos
  induction pos using Nat.strong_induction_on with
  | _ pos ih =>
    intro h2
    have hget : ¬(text.getD (pos - 1) ' ' = '\n') := by
      intro h
      rcases getD_default_or_mem text (pos - 1) ' ' with hd | hm
      · rw [h] at hd
        exact absurd hd (by decide)
      · rw [h] at hm
        exact hnl hm
    unfold split_at_pos
    rw [if_neg hget]
    by_cases hle : pos ≤ 2
    · rw [if_pos hle]
    · rw [if_neg hle]
      exact ih (pos - 1) (by omega) (by omega)

/-- A text within the length budget is sent whole, whatever the fuel. -/
theorem send_pieces_go_short (text : List Char) (h : text.length ≤ MAX_LEN) :
    ∀ fuel, send_pieces_go fuel text = [text] := by
  intro fuel
  cases fuel with
  | zero => rfl
  | succ f =>
    unfold send_pieces_go
    rw [if_pos h]

/-- Fuel of at least `text.length` is irrelevant: the fuel encoding of
`send_pieces_go` computes the Rust recursion exactly. -/
theorem send_pieces_go_fuel_stable : ∀ (n : Nat) (text : List Char), text.length ≤ n →
    ∀ f1 f2, text.length ≤ f1 → text.length ≤ f2 →
    send_pieces_go f1 text = send_pieces_go f2 text := by
  intro n
  induction n with
  | zero =>
    intro text h f1 f2 _ _
    have hshort : text.length ≤ MAX_LEN := by unfold MAX_LEN; omega
    rw [send_pieces_go_short text hshort f1, send_pieces_go_short text hshort f2]
  | succ m ih =>
    intro text h f1 f2 h1 h2
    by_cases hshort : text.length ≤ MAX_LEN
    · rw [send_pieces_go_short text hshort f1, send_pieces_go_short text hshort f2]
    · have hlong : MAX_LEN < text.length := by omega
      have hmax : (4096 : Nat) < text.length := hlong
      obtain ⟨a, rfl⟩ : ∃ a, f1 = a + 1 := ⟨f1 - 1, by omega⟩
      obtain ⟨b, rfl⟩ : ∃ b, f2 = b + 1 := ⟨f2 - 1, by omega⟩
      have hb := split_at_pos_bounds text MAX_LEN (by decide) (le_refl _)
      have hbound : split_at_pos text MAX_LEN ≤ 4096 := hb.2
      have hpos2 : 2 ≤ split_at_pos text MAX_LEN := hb.1
      unfold send_pieces_go
      rw [if_neg hshort, if_neg hshort]
      have htake : (text.take (split_at_pos text MAX_LEN)).length ≤ MAX_LEN := by
        rw [List.length_take]
        show min (split_at_pos text MAX_LEN) text.length ≤ 4096
        omega
      rw [send_pieces_go_short _ htake a, send_pieces_go_short _ htake b]
      by_cases hskip : split_at_pos text MAX_LEN + 1 = text.length
      · rw [if_pos hskip, if_pos hskip]
      · rw [if_neg hskip, if_neg hskip]
        have hdl : (text.drop (split_at_pos text MAX_LEN)).length = 
            text.length - split_at_pos text MAX_LEN := List.length_drop _ _
        rw [ih (text.drop (split_at_pos text MAX_LEN)) (by omega) a b (by omega) (by omega)]

/-- Every run of the send recursion emits, in order, a concatenation of
segments that extends to the original text (drops happen only at the
very end, through the skipped one-character remainder). -/
theorem send_pieces_go_flatten_extends (fuel : Nat) :
    ∀ text, ∃ rest, (send_pieces_go fuel text).flatten ++ rest = text := by
  induction fuel with
  | zero =>
    intro text
    exact ⟨[], by simp [send_pieces_go]⟩
  | succ f ih =>
    intro text
    by_cases hshort : text.length ≤ MAX_LEN
    · rw [send_pieces_go_short text hshort]
      exact ⟨[], by simp⟩
    · unfold send_pieces_go
      rw [if_neg hshort]
      have hb := split_at_pos_bounds text MAX_LEN (by decide) (le_refl _)
      have htake : (text.take (split_at_pos text MAX_LEN)).length ≤ MAX_LEN := by
        rw [List.length_take]
        have hbound : split_at_pos text MAX_LEN ≤ 4096 := hb.2
        show min (split_at_pos text MAX_LEN) text.length ≤ 4096
        omega
      rw [send_pieces_go_short _ htake]
      by_cases hskip : split_at_pos text MAX_LEN + 1 = text.length
      · rw [if_pos hskip]
        refine ⟨text.drop (split_at_pos text MAX_LEN), ?_⟩
        simp only [List.append_nil, List.flatten_cons, List.flatten_nil]
        exact List.take_append_drop _ _
      · rw [if_neg hskip]
        obtain ⟨rest, hrest⟩ := ih (text.drop (split_at_pos text MAX_LEN))
        refine ⟨rest, ?_⟩
        rw [List.flatten_append]
        simp only [List.flatten_cons, List.flatten_nil, List.append_nil, List.append_assoc]
        rw [hrest]
        exact List.take_append_drop _ _

/-- C7 counterexample: 4097 copies of `a` (no newline anywhere) are split
hard at 4096, and the one-character remainder is skipped
(`at + 1 == text.len()`): only the first 4096 characters are ever sent,
so the concatenation of sent segments is not the input. -/
theorem send_message_drops_char_at_4097 :
    send_message_pieces (List.replicate 4097 'a') = [List.replicate 4096 'a'] ∧
    (send_message_pieces (List.replicate 4097 'a')).flatten ≠ List.replicate 4097 'a' := by
  have hnl : '\n' ∉ List.replicate 4097 'a' := by
    intro h
    exact absurd (List.eq_of_mem_replicate h) (by decide)
  have hsplit : split_at_pos (List.replicate 4097 'a') MAX_LEN = MAX_LEN :=
    split_at_pos_no_newline _ hnl MAX_LEN (by decide)
  have hlen : (List.replicate 4097 'a').length = 4097 := List.length_replicate 4097 'a'
  have hmain : send_message_pieces (List.replicate 4097 'a') = [List.replicate 4096 'a'] := by
    unfold send_message_pieces
    rw [hlen]
    show send_pieces_go (4096 + 1) (List.replicate 4097 'a') = [List.replicate 4096 'a']
    unfold send_pieces_go
    rw [if_neg (by rw [hlen]; decide), hsplit]
    rw [if_pos (by rw [hlen]; decide)]
    rw [List.append_nil]
    have htake : (List.replicate 4097 'a').take MAX_LEN = List.replicate 4096 'a' := by
      rw [List.take_replicate]
      norm_num [MAX_LEN]
    rw [htake]
    exact send_pieces_go_short _ (by rw [List.length_replicate]; decide) 4096
  refine ⟨hmain, ?_⟩
  rw [hmain]
  intro h
  have := congrArg List.length h
  simp only [List.flatten_cons, List.flatten_nil, List.append_nil,
    List.length_replicate] at this
  omega

/-- C7 (amended): `send_message` splits at the last newline within the
first 4096 characters (hard split at 4096 when that window has none) and
recurses on both halves, except that a remainder of exactly one character
is skipped; hence the concatenation of the sent segments is an initial
segment of the input (the full input whenever no step leaves a
one-character remainder), and any text within the 4096 budget is sent
whole as a single message. -/
theorem send_message_pieces_concat (text : List Char) :
    (∃ rest, (send_message_pieces text).flatten ++ rest = text) ∧
    (text.length ≤ MAX_LEN → send_message_pieces text = [text]) :=
  ⟨send_pieces_go_flatten_extends text.length text,
    fun h => send_pieces_go_short text h text.length⟩

/-- Witness for C7 at a short concrete text. -/
theorem send_message_pieces_concat_witness :
    send_message_pieces "ab".toList = ["ab".toList] :=
  (send_message_pieces_concat "ab".toList).2 (by decide)


/-- C1: evaluation of the code at the failing pair. `compatible` accepts
the ordered pair (A, B) with A rated 100 and B's tolerance `[140, 160]`,
although A's rating lies below B's lower bound, because the fourth
conjunct compares `another.min_rating` with `another`'s own rating (a
self-comparison that always holds) instead of `one`'s; consequently the
per-tick search hands out a game whose subset contains the
spec-incompatible pair (A, B). -/
theorem compatible_accepts_pair_outside_tolerance :
    compatible c1_data c1_entry_a c1_entry_b = true ∧
    ¬spec_pair_compatible c1_data c1_entry_a c1_entry_b ∧
    (find_game c1_data [c1_entry_b, c1_entry_a, c1_entry_c] 3).map
        (fun r => r.1.players.map (fun p => p.1)) = some [3, 1, 2] := by
  refine ⟨by decide, ?_, by decide⟩
  unfold spec_pair_compatible
  decide

/-- Entries surviving `remove_first_by_id` come from the original queue. -/
theorem mem_of_mem_remove_first (q : List RawEntry) (x : Int) :
    ∀ e ∈ remove_first_by_id q x, e ∈ q := by
  induction q with
  | nil =>
    intro e he
    exact absurd he (by simp [remove_first_by_id])
  | cons e0 rest ih =>
    intro e he
    unfold remove_first_by_id at he
    by_cases h0 : e0.user_id = x
    · rw [if_pos h0] at he
      exact List.mem_cons_of_mem _ he
    · rw [if_neg h0] at he
      rcases List.mem_cons.mp he with rfl | hm
      · exact List.mem_cons_self _ _
      · exact List.mem_cons_of_mem _ (ih e hm)

/-- Entries with a different id survive `remove_first_by_id`. -/
theorem mem_remove_first_of_ne (q : List RawEntry) (x : Int) :
    ∀ e ∈ q, e.user_id ≠ x → e ∈ remove_first_by_id q x := by
  induction q with
  | nil =>
    intro e he
    exact absurd he (List.not_mem_nil e)
  | cons e0 rest ih =>
    intro e he hne
    unfold remove_first_by_id
    by_cases h0 : e0.user_id = x
    · rw [if_pos h0]
      rcases List.mem_cons.mp he with rfl | hm
      · exact absurd h0 hne
      · exact hm
    · rw [if_neg h0]
      rcases List.mem_cons.mp he with rfl | hm
      · exact List.mem_cons_self _ _
      · exact List.mem_cons_of_mem _ (ih e hm hne)

/-- `remove_first_by_id` only deletes. -/
theorem remove_first_sub (q : List RawEntry) (x : Int) :
    List.Sublist (remove_first_by_id q x) q := by
  induction q with
  | nil => simp [remove_first_by_id]
  | cons e0 rest ih =>
    unfold remove_first_by_id
    by_cases h0 : e0.user_id = x
    · rw [if_pos h0]
      exact List.sublist_cons_self e0 rest
    · rw [if_neg h0]
      exact List.Sublist.cons₂ e0 ih

/-- With pairwise-distinct queue ids, `remove_first_by_id` leaves no
entry carrying the removed id. -/
theorem not_mem_remove_first (q : List RawEntry) (x : Int)
    (hnd : (q.map (fun e => e.user_id)).Nodup) :
    ∀ e ∈ remove_first_by_id q x, e.user_id ≠ x := by
  induction q with
  | nil =>
    intro e he
    exact absurd he (by simp [remove_first_by_id])
  | cons e0 rest ih =>
    intro e he
    unfold remove_first_by_id at he
    simp only [List.map_cons, List.nodup_cons] at hnd
    by_cases h0 : e0.user_id = x
    · rw [if_pos h0] at he
      intro hx
      have hmem : e.user_id ∈ rest.map (fun e => e.user_id) := List.mem_map_of_mem _ he
      rw [hx, ← h0] at hmem
      exact hnd.1 hmem
    · rw [if_neg h0] at he
      rcases List.mem_cons.mp he with rfl | hm
      · exact h0
      · exact ih hnd.2 e hm

/-- Nodup of the id projection survives `remove_first_by_id`. -/
theorem nodup_map_remove_first (q : List RawEntry) (x : Int)
    (hnd : (q.map (fun e => e.user_id)).Nodup) :
    ((remove_first_by_id q x).map (fun e => e.user_id)).Nodup :=
  hnd.sublist ((remove_first_sub q x).map (fun e => e.user_id))

/-- Entries surviving `remove_all` come from the original queue. -/
theorem mem_of_mem_remove_all (ids : List Int) : ∀ (q : List RawEntry),
    ∀ e ∈ remove_all q ids, e ∈ q := by
  induction ids with
  | nil =>
    intro q e he
    exact he
  | cons x ids ih =>
    intro q e he
    exact mem_of_mem_remove_first q x e (ih (remove_first_by_id q x) e he)

/-- With pairwise-distinct queue ids, every removed id is gone from the
queue after `remove_all`. -/
theorem remove_all_removes (ids : List Int) : ∀ (q : List RawEntry),
    (q.map (fun e => e.user_id)).Nodup →
    ∀ x ∈ ids, ∀ e ∈ remove_all q ids, e.user_id ≠ x := by
  induction ids with
  | nil =>
    intro q _ x hx
    exact absurd hx (List.not_mem_nil x)
  | cons y ids ih =>
    intro q hnd x hx e he
    rcases List.mem_cons.mp hx with rfl | hm
    · exact not_mem_remove_first q x hnd e (mem_of_mem_remove_all ids _ e he)
    · exact ih (remove_first_by_id q y) (nodup_map_remove_first q y hnd) x hm e he

/-- Entries whose id is not removed survive `remove_all`. -/
theorem remove_all_keeps (ids : List Int) : ∀ (q : List RawEntry),
    ∀ e ∈ q, e.user_id ∉ ids → e ∈ remove_all q ids := by
  induction ids with
  | nil =>
    intro q e he _
    exact he
  | cons y ids ih =>
    intro q e he hni
    have hne : e.user_id ≠ y := fun h => hni (h ▸ List.mem_cons_self y ids)
    exact ih _ e (mem_remove_first_of_ne q y e he hne)
      (fun h => hni (List.mem_cons_of_mem y h))

/-- C10: one invocation of `find_games` emits at most one game, whatever
the store, the queue and the topic source; the matched players are
removed from the queue (none of their ids survives) and every other entry
stays, even when the remaining queue would still support another
compatible group. -/
theorem find_games_single_match (d : MatchData) (queue : List RawEntry)
    (hnd : (queue.map (fun e => e.user_id)).Nodup) :
    (find_games d queue).1.length ≤ 1 ∧
    (∀ e ∈ (find_games d queue).2, e ∈ queue) ∧
    (∀ r ∈ (find_games d queue).1,
      (∀ uid ∈ r.1.players.map (fun p => p.1),
        ∀ e ∈ (find_games d queue).2, e.user_id ≠ uid) ∧
      (∀ e ∈ queue, e.user_id ∉ r.1.players.map (fun p => p.1) →
        e ∈ (find_games d queue).2)) := by
  unfold find_games
  by_cases hshort : queue.length < 3
  · rw [if_pos hshort]
    exact ⟨by simp, fun e he => he, fun r hr => absurd hr (List.not_mem_nil r)⟩
  · rw [if_neg hshort]
    cases hm : (if min_num_players queue = 4 then [4] else [4, 3]).findSome?
        (fun n => find_game d (queue_players d queue) n) with
    | none =>
      exact ⟨by simp, fun e he => he, fun r hr => absurd hr (List.not_mem_nil r)⟩
    | some res =>
      refine ⟨by simp, fun e he => mem_of_mem_remove_all _ _ e he, ?_⟩
      intro r hr
      rcases List.mem_singleton.mp hr with rfl
      exact ⟨fun uid huid e he => remove_all_removes _ queue hnd uid huid e he,
        fun e he hni => remove_all_keeps _ queue e he hni⟩

/-- Witness for C10 on a concrete three-player queue. -/
theorem find_games_single_match_witness :
    (find_games ⟨fun _ => ⟨"u", 100⟩, fun _ _ => false, fun _ => none⟩
        [⟨1, 11, 70000, 0⟩, ⟨2, 12, 70000, 0⟩, ⟨3, 13, 70000, 0⟩]).1.length ≤ 1 :=
  (find_games_single_match ⟨fun _ => ⟨"u", 100⟩, fun _ _ => false, fun _ => none⟩
    [⟨1, 11, 70000, 0⟩, ⟨2, 12, 70000, 0⟩, ⟨3, 13, 70000, 0⟩] (by decide)).1

end Svoyak
